import Mathlib

/-!
Verification of the task-queue core of polygon_b2_downloader_v2.

The definitions below are a shallow embedding of `src/shared/db_manager.py`,
`src/worker/main.py` and `src/discoverer/main.py`. The database table
`files_to_process` is modelled as a list of rows in insertion order; SQL
timestamps (`func.now()`) are modelled as a `Nat` clock value passed to each
operation; each transaction of the Python code (a `with connection.begin()`
block) is modelled as one atomic step on the list. Concurrency and external
I/O are modelled by explicit oracle parameters deciding, per step, which of
the branches the running code observes.
-/

/-- The status string constants of db_manager.py, as a closed enumeration.
`completed` is STATUS_UPLOADED_TO_B2, whose string constant is "completed". -/
inductive Status
  | pending
  | processing
  | downloaded
  | completed
  | failed_download
  | failed_upload
  | permanent_failure
deriving DecidableEq, Repr

/-- The string value of each status constant in db_manager.py. -/
def statusStr : Status → String
  | .pending => "pending"
  | .processing => "processing"
  | .downloaded => "downloaded"
  | .completed => "completed"
  | .failed_download => "failed_download"
  | .failed_upload => "failed_upload"
  | .permanent_failure => "permanent_failure"

/-- MAX_RETRIES = 2 in db_manager.py. -/
def MAX_RETRIES : Nat := 2

/-- One row of the files_to_process table (db_manager.py, table definition).
The column last_attempted_at carries a column-level onupdate=func.now()
default in the source, modelled explicitly in the update operations below. -/
structure Row where
  id : Nat
  file_key : String
  status : Status
  worker_id : Option String
  discovered_at : Nat
  last_attempted_at : Option Nat
  completed_at : Option Nat
  retry_count : Nat
  error_message : Option String
deriving DecidableEq, Repr

/-- The table, as rows in insertion order. -/
abbrev DB := List Row

/-- SELECT ... WHERE id == tid, first row (the re-read of a claimed task and
the WHERE clause target of the update statements). -/
def findRow (tid : Nat) : DB → Option Row
  | [] => none
  | r :: rs => if r.id = tid then some r else findRow tid rs

/-- Number of rows matched by a WHERE id == tid clause: the rowcount an
UPDATE keyed on the id reports. -/
def stmtRowcount (tid : Nat) (db : DB) : Nat :=
  (db.filter (fun r => r.id == tid)).length

/-- Number of rows carrying a given file_key. -/
def countKey (k : String) (db : DB) : Nat :=
  (db.filter (fun r => r.file_key == k)).length

/-- UPDATE ... WHERE id == tid applying f to every matched row. -/
def mapUpdate (tid : Nat) (f : Row → Row) (db : DB) : DB :=
  db.map (fun r => if r.id = tid then f r else r)

/-- The WHERE clause of the candidate select in get_pending_task:
(status == pending OR (status IN (failed_download, failed_upload) AND
retry_count < MAX_RETRIES)) AND worker_id IS NULL. -/
def eligibleB (r : Row) : Bool :=
  (r.status == Status.pending ||
    ((r.status == Status.failed_download || r.status == Status.failed_upload) &&
      decide (r.retry_count < MAX_RETRIES))) &&
  r.worker_id == none

/-- Strict comparison for ORDER BY retry_count, discovered_at. -/
def betterRow (a b : Row) : Bool :=
  decide (a.retry_count < b.retry_count ∨
    (a.retry_count = b.retry_count ∧ a.discovered_at < b.discovered_at))

/-- Reflexive comparison for the ORDER BY key. -/
def keyLE (a b : Row) : Prop :=
  a.retry_count < b.retry_count ∨
    (a.retry_count = b.retry_count ∧ a.discovered_at ≤ b.discovered_at)

/-- Accumulator step keeping the best row seen so far (ties keep the earlier
row, matching an arbitrary-but-fixed tie-break of the SQL ORDER BY). -/
def pickMin (acc : Option Row) (r : Row) : Option Row :=
  match acc with
  | none => some r
  | some b => if betterRow r b then some r else some b

/-- The candidate select of get_pending_task, step 1: eligible rows ordered
by (retry_count, discovered_at), LIMIT 1. -/
def selectCandidate (db : DB) : Option Row :=
  (db.filter eligibleB).foldl pickMin none

/-- The claim UPDATE of get_pending_task, step 2 (stmt_claim). Its WHERE
clause is only id == task_id: the additional worker_id IS NULL condition is
commented out in the source. crc is the retry_count read at select time. -/
def stmtClaimApply (tid : Nat) (w : String) (crc now : Nat) (db : DB) : DB :=
  mapUpdate tid
    (fun r =>
      { r with
        status := Status.processing
        worker_id := some w
        last_attempted_at := some now
        retry_count := crc + 1 })
    db

/-- The row a successful claim produces from candidate r. -/
def claimRow (w : String) (now : Nat) (r : Row) : Row :=
  { r with
    status := Status.processing
    worker_id := some w
    last_attempted_at := some now
    retry_count := r.retry_count + 1 }

/-- Outcome of one claim transaction: done r means get_pending_task returns
r, retry means the rowcount test failed and the loop continues. -/
inductive ClaimResult
  | done : Option Row → ClaimResult
  | retry : ClaimResult
deriving DecidableEq, Repr

/-- One iteration body of get_pending_task executed with no interference: the
candidate select, the claim update, the rowcount == 1 test and the re-read,
all inside one transaction. -/
def claimTransaction (w : String) (now : Nat) (db : DB) : ClaimResult × DB :=
  match selectCandidate db with
  | none => (.done none, db)
  | some cand =>
    let db1 := stmtClaimApply cand.id w cand.retry_count now db
    if stmtRowcount cand.id db = 1 then (.done (findRow cand.id db1), db1)
    else (.retry, db1)

/-- What the environment does to one iteration of the claim loop: ok means
the transaction runs without interference, lostRace means the conditional
update reports zero rows because a concurrent claimant interfered, opError
is an OperationalError, unexpected is any other exception. -/
inductive AttemptOutcome
  | ok
  | lostRace
  | opError
  | unexpected
deriving DecidableEq, Repr

/-- The bounded retry loop of get_pending_task (for attempt_num in range(5)).
Returns the claimed row, the resulting table, and the list of back-off sleeps
performed, in units of 0.1 s (the code sleeps 0.1 * (attempt_num + 1) at the
end of every non-returning iteration). -/
def gptAttempts (w : String) (now : Nat) :
    List AttemptOutcome → Nat → DB → Option Row × DB × List Nat
  | [], _, db => (none, db, [])
  | o :: rest, attempt, db =>
    match o with
    | .unexpected => (none, db, [])
    | .opError =>
      let (r, db1, s) := gptAttempts w now rest (attempt + 1) db
      (r, db1, (attempt + 1) :: s)
    | .lostRace =>
      match selectCandidate db with
      | none => (none, db, [])
      | some _ =>
        let (r, db1, s) := gptAttempts w now rest (attempt + 1) db
        (r, db1, (attempt + 1) :: s)
    | .ok =>
      match claimTransaction w now db with
      | (.done r, db1) => (r, db1, [])
      | (.retry, db1) =>
        let (r, db2, s) := gptAttempts w now rest (attempt + 1) db1
        (r, db2, (attempt + 1) :: s)

/-- DBManager.get_pending_task. connectOk = false models the call
self.engine.connect() raising (it stands outside every try/except of the
function, so that failure propagates to the caller); with the connection
established, the body never lets an exception escape. The outcomes list has
one entry per loop iteration (five in the source). -/
def getPendingTask (w : String) (now : Nat) (connectOk : Bool)
    (outcomes : List AttemptOutcome) (db : DB) :
    Except Unit (Option Row × DB × List Nat) :=
  if connectOk then .ok (gptAttempts w now outcomes 0 db) else .error ()

/-- The str.startswith test of the source, computed over the character lists
of the strings (the builtin String.startsWith does not reduce inside the
kernel). -/
def strStartsWith (s p : String) : Bool := p.data.isPrefixOf s.data

/-- Python truthiness of the worker_id_to_clear argument: None and the empty
string are falsy. -/
def truthy : Option String → Bool
  | none => false
  | some s => s != ""

/-- The row-level effect of the single UPDATE issued by
DBManager.update_task_status: the values dict built by the function, plus
the column-level onupdate=func.now() default on last_attempted_at, which is
added to the SET clause of every UPDATE that does not set that column. -/
def updateValues (new_status : Status) (error_msg : Option String)
    (worker_id_to_clear : Option String) (now : Nat) (r : Row) : Row :=
  let r1 := { r with status := new_status, last_attempted_at := some now }
  let r2 :=
    match error_msg with
    | some m => { r1 with error_message := some m }
    | none => r1
  if new_status = Status.completed then
    { r2 with completed_at := some now, worker_id := none }
  else if new_status = Status.permanent_failure then
    { r2 with worker_id := none }
  else if truthy worker_id_to_clear &&
      strStartsWith (statusStr new_status) "failed_" then
    { r2 with worker_id := none }
  else r2

/-- DBManager.update_task_status: one UPDATE keyed on id == task_id. -/
def updateTaskStatus (task_id : Nat) (new_status : Status)
    (error_msg : Option String) (worker_id_to_clear : Option String)
    (now : Nat) (db : DB) : DB :=
  mapUpdate task_id (updateValues new_status error_msg worker_id_to_clear now) db

/-- The row-level effect of DBManager.release_task: status and worker_id are
always set, error_message only when given, and last_attempted_at is refreshed
by the column-level onupdate default. -/
def releaseValues (new_status : Status) (error_msg : Option String)
    (now : Nat) (r : Row) : Row :=
  let r1 := { r with
    status := new_status
    worker_id := none
    last_attempted_at := some now }
  match error_msg with
  | some m => { r1 with error_message := some m }
  | none => r1

/-- DBManager.release_task: one UPDATE keyed on id == task_id. -/
def releaseTask (task_id : Nat) (new_status : Status)
    (error_msg : Option String) (now : Nat) (db : DB) : DB :=
  mapUpdate task_id (releaseValues new_status error_msg now) db

/-- The row INSERTed by DBManager.add_task: status pending, retry_count 0,
discovered_at from the server default func.now(), id from autoincrement. -/
def addTaskRow (db : DB) (file_key : String) (now : Nat) : Row :=
  { id := db.length + 1
    file_key := file_key
    status := Status.pending
    worker_id := none
    discovered_at := now
    last_attempted_at := none
    completed_at := none
    retry_count := 0
    error_message := none }

/-- DBManager.add_task: the INSERT succeeds and returns True when no row has
this file_key; a duplicate violates the UNIQUE constraint, the IntegrityError
is caught, and the function returns False with the table unchanged. -/
def addTask (file_key : String) (now : Nat) (db : DB) : Bool × DB :=
  if db.any (fun r => r.file_key == file_key) then (false, db)
  else (true, db ++ [addTaskRow db file_key now])

/-- The table after one add_task call. -/
def addTaskStep (file_key : String) (now : Nat) (db : DB) : DB :=
  (addTask file_key now db).2

/-- DBManager.get_task_by_file_key. -/
def getTaskByKey (k : String) (db : DB) : Option Row :=
  db.find? (fun r => r.file_key == k)

/-- One iteration of the key loop in Discoverer.run: a key whose row already
exists is counted skipped; otherwise add_task is called, True counts added,
False counts skipped. Accumulator is ((added, skipped), table). -/
def discovererStep (now : Nat) (acc : (Nat × Nat) × DB) (k : String) :
    (Nat × Nat) × DB :=
  match getTaskByKey k acc.2 with
  | some _ => ((acc.1.1, acc.1.2 + 1), acc.2)
  | none =>
    match addTask k now acc.2 with
    | (true, db1) => ((acc.1.1 + 1, acc.1.2), db1)
    | (false, db1) => ((acc.1.1, acc.1.2 + 1), db1)

/-- The key loop of Discoverer.run over a list of discovered keys. -/
def discovererRun (now : Nat) (keys : List String) (db : DB) :
    (Nat × Nat) × DB :=
  keys.foldl (discovererStep now) ((0, 0), db)

/-- Behaviour of one external transfer call observed by the worker: ok, a
falsy result (download_file returning None, upload_file returning False), or
an exception escaping the call. -/
inductive StepOutcome
  | ok
  | failed
  | raised
deriving DecidableEq, Repr

/-- Environment oracle for one _process_single_task call. -/
structure ProcOracle where
  download : StepOutcome
  upload : StepOutcome
deriving DecidableEq, Repr

/-- Result of _process_single_task: normal return, or an exception escaping
the method, each with the table it leaves behind. -/
inductive ProcResult
  | normal : DB → ProcResult
  | raised : DB → ProcResult
deriving DecidableEq, Repr

/-- Worker._process_single_task on a claimed task, given its id and the
retry_count handed over at claim time. Mirrors the download step, the
downloaded checkpoint update, the upload step, and the failure branches
comparing retry_count against MAX_RETRIES. -/
def processSingleTask (w : String) (task_id retry_count : Nat)
    (oracle : ProcOracle) (now : Nat) (db : DB) : ProcResult :=
  match oracle.download with
  | .raised => .raised db
  | .failed =>
    if retry_count ≥ MAX_RETRIES then
      .normal (updateTaskStatus task_id Status.permanent_failure
        (some "Download failed after max retries.") (some w) now db)
    else
      .normal (updateTaskStatus task_id Status.failed_download
        (some "Download failed.") (some w) now db)
  | .ok =>
    let db1 := updateTaskStatus task_id Status.downloaded none none now db
    match oracle.upload with
    | .raised => .raised db1
    | .failed =>
      if retry_count ≥ MAX_RETRIES then
        .normal (updateTaskStatus task_id Status.permanent_failure
          (some "Upload to B2 failed after max retries.") (some w) now db1)
      else
        .normal (updateTaskStatus task_id Status.failed_upload
          (some "Upload to B2 failed.") (some w) now db1)
    | .ok =>
      .normal (updateTaskStatus task_id Status.completed none (some w) now db1)

/-- Worker.run_once: claim a task; on success process it, catching any
exception escaping _process_single_task and moving the task to
permanent_failure or releasing it as failed_download according to the
retry_count recorded at claim time. The Except error is an exception
escaping run_once itself (only a failed engine.connect() inside
get_pending_task can cause that). -/
def runOnce (w : String) (now : Nat) (connectOk : Bool)
    (outcomes : List AttemptOutcome) (oracle : ProcOracle) (db : DB) :
    Except Unit (Bool × DB) :=
  match getPendingTask w now connectOk outcomes db with
  | .error () => .error ()
  | .ok (none, db1, _) => .ok (false, db1)
  | .ok (some task, db1, _) =>
    match processSingleTask w task.id task.retry_count oracle now db1 with
    | .normal db2 => .ok (true, db2)
    | .raised db2 =>
      if task.retry_count ≥ MAX_RETRIES then
        .ok (true, updateTaskStatus task.id Status.permanent_failure
          (some "Unhandled exception") (some w) now db2)
      else
        .ok (true, releaseTask task.id Status.failed_download
          (some "Unhandled exception") now db2)

/-- Environment of one cycle of the worker poll loop. -/
structure CycleEnv where
  now : Nat
  connectOk : Bool
  outcomes : List AttemptOutcome
  oracle : ProcOracle

/-- Worker.loop, fuelled by the list of cycle environments: each cycle runs
run_once and continues; an exception escaping run_once would end the loop. -/
def workerLoop (w : String) : List CycleEnv → DB → Except Unit DB
  | [], db => .ok db
  | e :: rest, db =>
    match runOnce w e.now e.connectOk e.outcomes e.oracle db with
    | .error () => .error ()
    | .ok (_, db1) => workerLoop w rest db1

/-- One store operation of a claim-era trace: a claim transaction, a claim
attempt lost to a concurrent claimant before its select (no effect on the
table), a status update, or a release. -/
inductive Op
  | claim : String → Nat → Op
  | lose : Op
  | updateStatus : Nat → Status → Option String → Option String → Nat → Op
  | release : Nat → Status → Option String → Nat → Op

/-- Applying one trace operation to the table. -/
def applyOp (db : DB) : Op → DB
  | .claim w now => (claimTransaction w now db).2
  | .lose => db
  | .updateStatus tid st em wc now => updateTaskStatus tid st em wc now db
  | .release tid st em now => releaseTask tid st em now db

/-- Applying a trace of operations. -/
def applyOps (db : DB) (ops : List Op) : DB := ops.foldl applyOp db

/-- Whether one trace operation is a claim that succeeds on task tid when run
against the given table. -/
def winsOn (db : DB) (tid : Nat) : Op → Nat
  | .claim w now =>
    match (claimTransaction w now db).1 with
    | .done (some t) => if t.id = tid then 1 else 0
    | _ => 0
  | _ => 0

/-- Number of successful claims of task tid along a trace. -/
def countWins (db : DB) (tid : Nat) : List Op → Nat
  | [] => 0
  | op :: ops => winsOn db tid op + countWins (applyOp db op) tid ops

/-- Serial execution of one claim transaction per listed worker, recording
for each worker the task it obtained (none for a lost race or an empty
pool). -/
def runClaimants (now : Nat) : List String → DB → List (Option Row) × DB
  | [], db => ([], db)
  | w :: ws, db =>
    match claimTransaction w now db with
    | (res, db1) =>
      let rest := runClaimants now ws db1
      ((match res with | .done r => r | .retry => none) :: rest.1, rest.2)

/-- Extracts the resulting table from a run_once result. -/
def exceptDB (e : Except Unit (Bool × DB)) : DB :=
  match e with
  | .ok (_, d) => d
  | .error _ => []

/-- Whether a run_once result is a normal return. -/
def isOkE (e : Except Unit (Bool × DB)) : Bool :=
  match e with
  | .ok _ => true
  | .error _ => false

/-- Extracts the resulting table from a _process_single_task result. -/
def procDB : ProcResult → DB
  | .normal d => d
  | .raised d => d

/-- Whether a _process_single_task run returned without an exception. -/
def isNormal : ProcResult → Bool
  | .normal _ => true
  | .raised _ => false

/-- A freshly discovered task row, as add_task inserts it. -/
def rowPending1 : Row :=
  { id := 1
    file_key := "k1"
    status := Status.pending
    worker_id := none
    discovered_at := 0
    last_attempted_at := none
    completed_at := none
    retry_count := 0
    error_message := none }

/-- A second fresh task row, discovered later. -/
def rowPending2 : Row :=
  { id := 2
    file_key := "k2"
    status := Status.pending
    worker_id := none
    discovered_at := 3
    last_attempted_at := none
    completed_at := none
    retry_count := 0
    error_message := none }

/-- A row currently owned by worker w1. -/
def rowOwned1 : Row :=
  { id := 1
    file_key := "k1"
    status := Status.processing
    worker_id := some "w1"
    discovered_at := 0
    last_attempted_at := some 5
    completed_at := none
    retry_count := 1
    error_message := none }

/-- rowPending1 after one claim whose download attempt fails. -/
def rowC2b : Row :=
  { id := 1
    file_key := "k1"
    status := Status.failed_download
    worker_id := none
    discovered_at := 0
    last_attempted_at := some 1
    completed_at := none
    retry_count := 1
    error_message := some "Download failed." }

/-- rowC2b after a second claim whose download attempt also fails. -/
def rowC2c : Row :=
  { id := 1
    file_key := "k1"
    status := Status.permanent_failure
    worker_id := none
    discovered_at := 0
    last_attempted_at := some 2
    completed_at := none
    retry_count := 2
    error_message := some "Download failed after max retries." }

/-- A task row for item key a. -/
def rowKeyA : Row :=
  { id := 1
    file_key := "a"
    status := Status.pending
    worker_id := none
    discovered_at := 0
    last_attempted_at := none
    completed_at := none
    retry_count := 0
    error_message := none }

theorem findRow_id {tid : Nat} {db : DB} {y : Row}
    (h : findRow tid db = some y) : y.id = tid := by
  induction db with
  | nil => simp [findRow] at h
  | cons r rs ih =>
    simp only [findRow] at h
    split at h
    · rename_i hid
      injection h with h2
      subst h2
      exact hid
    · exact ih h

theorem findRow_mem {tid : Nat} {db : DB} {y : Row}
    (h : findRow tid db = some y) : y ∈ db := by
  induction db with
  | nil => simp [findRow] at h
  | cons r rs ih =>
    simp only [findRow] at h
    split at h
    · injection h with h2
      subst h2
      exact List.mem_cons_self _ _
    · exact List.mem_cons_of_mem _ (ih h)

theorem findRow_mapUpdate_self {tid : Nat} {f : Row → Row}
    (hf : ∀ r, (f r).id = r.id) (db : DB) :
    findRow tid (mapUpdate tid f db) = (findRow tid db).map f := by
  induction db with
  | nil => rfl
  | cons r rs ih =>
    simp only [mapUpdate, List.map_cons, findRow]
    by_cases hid : r.id = tid
    · simp [hid, hf]
    · simp only [hid, if_false, if_neg hid]
      exact ih

theorem findRow_mapUpdate_ne {s tid : Nat} {f : Row → Row}
    (hf : ∀ r, (f r).id = r.id) (hne : s ≠ tid) (db : DB) :
    findRow s (mapUpdate tid f db) = findRow s db := by
  induction db with
  | nil => rfl
  | cons r rs ih =>
    simp only [mapUpdate, List.map_cons]
    by_cases hid : r.id = tid
    · rw [if_pos hid]
      have h1 : ¬(f r).id = s := by
        rw [hf r, hid]
        exact fun h => hne h.symm
      have h2 : ¬r.id = s := by
        rw [hid]
        exact fun h => hne h.symm
      simp only [findRow, if_neg h1, if_neg h2]
      simpa [mapUpdate] using ih
    · rw [if_neg hid]
      simp only [findRow]
      by_cases hrs : r.id = s
      · rw [if_pos hrs, if_pos hrs]
      · rw [if_neg hrs, if_neg hrs]
        simpa [mapUpdate] using ih

theorem ids_mapUpdate {tid : Nat} {f : Row → Row}
    (hf : ∀ r, (f r).id = r.id) (db : DB) :
    (mapUpdate tid f db).map Row.id = db.map Row.id := by
  induction db with
  | nil => rfl
  | cons r rs ih =>
    simp only [mapUpdate, List.map_cons] at *
    by_cases hid : r.id = tid
    · simp only [hid, if_true, hf]
      rw [ih]
    · simp only [hid, if_false]
      rw [ih]

theorem nodup_findRow {db : DB} (h : (db.map Row.id).Nodup) {r : Row}
    (hr : r ∈ db) : findRow r.id db = some r := by
  induction db with
  | nil => simp at hr
  | cons x xs ih =>
    simp only [List.map_cons, List.nodup_cons] at h
    rcases List.mem_cons.mp hr with h1 | h1
    · subst h1
      simp [findRow]
    · have hxne : x.id ≠ r.id := by
        intro he
        exact h.1 (he ▸ List.mem_map.mpr ⟨r, h1, rfl⟩)
      simp only [findRow, if_neg hxne]
      exact ih h.2 h1

theorem stmtRowcount_eq_zero {tid : Nat} {db : DB}
    (h : tid ∉ db.map Row.id) : stmtRowcount tid db = 0 := by
  induction db with
  | nil => rfl
  | cons r rs ih =>
    simp only [List.map_cons, List.mem_cons, not_or] at h
    have hb : (r.id == tid) = false := by
      simp only [beq_eq_false_iff_ne, ne_eq]
      intro he
      exact h.1 he.symm
    have h0 := ih h.2
    simp only [stmtRowcount, List.filter_cons, hb] at h0 ⊢
    simpa using h0

theorem stmtRowcount_eq_one {db : DB} (h : (db.map Row.id).Nodup) {r : Row}
    (hr : r ∈ db) : stmtRowcount r.id db = 1 := by
  induction db with
  | nil => simp at hr
  | cons x xs ih =>
    simp only [List.map_cons, List.nodup_cons] at h
    rcases List.mem_cons.mp hr with h1 | h1
    · subst h1
      have h0 : stmtRowcount r.id xs = 0 := stmtRowcount_eq_zero h.1
      simp only [stmtRowcount, List.filter_cons] at h0 ⊢
      simp [h0]
    · have hxne : (x.id == r.id) = false := by
        simp only [beq_eq_false_iff_ne, ne_eq]
        intro he
        exact h.1 (he ▸ List.mem_map.mpr ⟨r, h1, rfl⟩)
      have h0 := ih h.2 h1
      simp only [stmtRowcount, List.filter_cons, hxne] at h0 ⊢
      simpa using h0

theorem eligibleB_iff {r : Row} :
    eligibleB r = true ↔
      ((r.status = Status.pending ∨
        ((r.status = Status.failed_download ∨ r.status = Status.failed_upload) ∧
          r.retry_count < MAX_RETRIES)) ∧
       r.worker_id = none) := by
  simp [eligibleB, Bool.and_eq_true, Bool.or_eq_true, beq_iff_eq, decide_eq_true_iff]

theorem eligibleB_false_of_owner {r : Row} (h : r.worker_id ≠ none) :
    eligibleB r = false := by
  rcases hw : r.worker_id with _ | s
  · exact absurd hw h
  · simp [eligibleB, hw]

theorem keyLE_trans {a b c : Row} (h1 : keyLE a b) (h2 : keyLE b c) : keyLE a c := by
  rcases h1 with h1 | ⟨h1, h1d⟩ <;> rcases h2 with h2 | ⟨h2, h2d⟩ <;>
    simp only [keyLE] <;> omega

theorem keyLE_of_betterRow {a b : Row} (h : betterRow a b = true) : keyLE a b := by
  simp only [betterRow, decide_eq_true_iff] at h
  rcases h with h | ⟨h, hd⟩ <;> simp only [keyLE] <;> omega

theorem keyLE_of_not_betterRow {a b : Row} (h : betterRow a b = false) : keyLE b a := by
  simp only [betterRow, decide_eq_false_iff_not, not_or, not_and, not_lt] at h
  rcases Nat.lt_trichotomy b.retry_count a.retry_count with hlt | heq | hgt
  · exact Or.inl hlt
  · exact Or.inr ⟨heq, h.2 heq.symm⟩
  · exact absurd hgt (not_lt.mpr h.1)

theorem pickMin_foldl_mem : ∀ (l : List Row) (acc : Option Row) (r : Row),
    l.foldl pickMin acc = some r → acc = some r ∨ r ∈ l := by
  intro l
  induction l with
  | nil => intro acc r h; exact Or.inl h
  | cons x xs ih =>
    intro acc r h
    simp only [List.foldl_cons] at h
    rcases ih (pickMin acc x) r h with h1 | h1
    · rcases acc with _ | b
      · simp only [pickMin] at h1
        injection h1 with h2
        exact Or.inr (h2 ▸ List.mem_cons_self _ _)
      · simp only [pickMin] at h1
        split at h1
        · injection h1 with h2
          exact Or.inr (h2 ▸ List.mem_cons_self _ _)
        · exact Or.inl h1
    · exact Or.inr (List.mem_cons_of_mem _ h1)

theorem pickMin_foldl_none : ∀ (l : List Row) (acc : Option Row),
    l.foldl pickMin acc = none → acc = none ∧ l = [] := by
  intro l
  induction l with
  | nil => intro acc h; exact ⟨h, rfl⟩
  | cons x xs ih =>
    intro acc h
    simp only [List.foldl_cons] at h
    have h1 := (ih (pickMin acc x) h).1
    rcases acc with _ | b
    · simp [pickMin] at h1
    · simp only [pickMin] at h1
      split at h1 <;> simp at h1

theorem pickMin_foldl_min : ∀ (l : List Row) (acc : Option Row) (r : Row),
    l.foldl pickMin acc = some r →
    (∀ b, acc = some b → keyLE r b) ∧ ∀ x ∈ l, keyLE r x := by
  intro l
  induction l with
  | nil =>
    intro acc r h
    refine ⟨fun b hb => ?_, fun x hx => absurd hx (List.not_mem_nil x)⟩
    rw [hb] at h
    injection h with h2
    subst h2
    exact Or.inr ⟨rfl, le_refl _⟩
  | cons x xs ih =>
    intro acc r h
    simp only [List.foldl_cons] at h
    obtain ⟨hacc, hall⟩ := ih (pickMin acc x) r h
    have hx : keyLE r x := by
      rcases acc with _ | b
      · exact hacc x rfl
      · simp only [pickMin] at hacc
        rcases hbr : betterRow x b with _ | _
        · have hb : keyLE r b := hacc b (by rw [if_neg]; simp [hbr])
          exact keyLE_trans hb (keyLE_of_not_betterRow hbr)
        · exact hacc x (by rw [if_pos hbr])
    refine ⟨fun b hb => ?_, fun y hy => ?_⟩
    · subst hb
      simp only [pickMin] at hacc
      rcases hbr : betterRow x b with _ | _
      · exact hacc b (by rw [if_neg]; simp [hbr])
      · exact keyLE_trans (hacc x (by rw [if_pos hbr])) (keyLE_of_betterRow hbr)
    · rcases List.mem_cons.mp hy with h1 | h1
      · exact h1 ▸ hx
      · exact hall y h1

theorem selectCandidate_mem {db : DB} {r : Row}
    (h : selectCandidate db = some r) : r ∈ db ∧ eligibleB r = true := by
  rcases pickMin_foldl_mem _ _ _ h with h1 | h1
  · simp at h1
  · exact ⟨(List.mem_filter.mp h1).1, (List.mem_filter.mp h1).2⟩

theorem selectCandidate_min {db : DB} {r : Row}
    (h : selectCandidate db = some r) :
    ∀ x ∈ db, eligibleB x = true → keyLE r x := by
  intro x hx he
  exact (pickMin_foldl_min _ _ _ h).2 x (List.mem_filter.mpr ⟨hx, he⟩)

theorem selectCandidate_none_iff {db : DB} :
    selectCandidate db = none ↔ db.filter eligibleB = [] := by
  constructor
  · intro h
    exact (pickMin_foldl_none _ _ h).2
  · intro h
    simp [selectCandidate, h]

theorem selectCandidate_singleton {db : DB} {r : Row}
    (h : db.filter eligibleB = [r]) : selectCandidate db = some r := by
  simp [selectCandidate, h, pickMin]


theorem ct_none (w : String) (now : Nat) {db : DB}
    (hsel : selectCandidate db = none) :
    claimTransaction w now db = (.done none, db) := by
  simp [claimTransaction, hsel]

theorem ct_some (w : String) (now : Nat) {db : DB} {cand : Row}
    (hsel : selectCandidate db = some cand)
    (hrc : stmtRowcount cand.id db = 1) :
    claimTransaction w now db =
      (.done (findRow cand.id (stmtClaimApply cand.id w cand.retry_count now db)),
        stmtClaimApply cand.id w cand.retry_count now db) := by
  simp [claimTransaction, hsel, hrc]

theorem ct_retry (w : String) (now : Nat) {db : DB} {cand : Row}
    (hsel : selectCandidate db = some cand)
    (hrc : ¬stmtRowcount cand.id db = 1) :
    claimTransaction w now db =
      (.retry, stmtClaimApply cand.id w cand.retry_count now db) := by
  simp [claimTransaction, hsel, hrc]

theorem claimTransaction_no_eligible {db : DB}
    (h : db.filter eligibleB = []) (w : String) (now : Nat) :
    claimTransaction w now db = (.done none, db) :=
  ct_none w now (selectCandidate_none_iff.mpr h)

theorem findRow_stmtClaim_self (tid : Nat) (w : String) (crc now : Nat) (db : DB) :
    findRow tid (stmtClaimApply tid w crc now db) =
      (findRow tid db).map (fun r =>
        { r with
          status := Status.processing
          worker_id := some w
          last_attempted_at := some now
          retry_count := crc + 1 }) := by
  rw [stmtClaimApply, findRow_mapUpdate_self]
  exact fun r => rfl

theorem claimTransaction_ids (w : String) (now : Nat) (db : DB) :
    ((claimTransaction w now db).2).map Row.id = db.map Row.id := by
  rcases hsel : selectCandidate db with _ | cand
  · rw [ct_none w now hsel]
  · by_cases hrc : stmtRowcount cand.id db = 1
    · rw [ct_some w now hsel hrc, stmtClaimApply]
      apply ids_mapUpdate
      intro r
      rfl
    · rw [ct_retry w now hsel hrc, stmtClaimApply]
      apply ids_mapUpdate
      intro r
      rfl

theorem claimTransaction_singleton {db : DB} {r : Row}
    (h1 : db.filter eligibleB = [r]) (h2 : (db.map Row.id).Nodup)
    (w : String) (now : Nat) :
    claimTransaction w now db =
      (.done (some (claimRow w now r)), stmtClaimApply r.id w r.retry_count now db) := by
  have hsel : selectCandidate db = some r := selectCandidate_singleton h1
  have hmem : r ∈ db := (selectCandidate_mem hsel).1
  have hrc : stmtRowcount r.id db = 1 := stmtRowcount_eq_one h2 hmem
  have hfind : findRow r.id db = some r := nodup_findRow h2 hmem
  rw [ct_some w now hsel hrc, findRow_stmtClaim_self, hfind]
  rfl

theorem claimPost_no_eligible {db : DB} {r : Row}
    (h1 : db.filter eligibleB = [r]) (w : String) (crc now : Nat) :
    (stmtClaimApply r.id w crc now db).filter eligibleB = [] := by
  rw [List.filter_eq_nil_iff]
  intro x hx
  simp only [stmtClaimApply, mapUpdate, List.mem_map] at hx
  obtain ⟨y, hy, hxy⟩ := hx
  by_cases hid : y.id = r.id
  · rw [if_pos hid] at hxy
    subst hxy
    intro hc
    have := (eligibleB_iff.mp hc).2
    simp at this
  · rw [if_neg hid] at hxy
    subst hxy
    intro hc
    have hmem2 : y ∈ db.filter eligibleB := List.mem_filter.mpr ⟨hy, hc⟩
    rw [h1] at hmem2
    exact hid (by rw [List.mem_singleton.mp hmem2])

theorem claimTransaction_done_findRow {w : String} {now : Nat} {db : DB}
    {t : Row} {db1 : DB}
    (h : claimTransaction w now db = (.done (some t), db1)) :
    findRow t.id db1 = some t := by
  rcases hsel : selectCandidate db with _ | cand
  · rw [ct_none w now hsel] at h
    simp at h
  · by_cases hrc : stmtRowcount cand.id db = 1
    · rw [ct_some w now hsel hrc] at h
      simp only [Prod.mk.injEq, ClaimResult.done.injEq] at h
      obtain ⟨h5, h4⟩ := h
      rw [← h4]
      have hid : t.id = cand.id := findRow_id h5
      rw [hid]
      exact h5
    · rw [ct_retry w now hsel hrc] at h
      simp at h

theorem claimTransaction_not_retry {db : DB} (h2 : (db.map Row.id).Nodup)
    (w : String) (now : Nat) : (claimTransaction w now db).1 ≠ .retry := by
  rcases hsel : selectCandidate db with _ | cand
  · rw [ct_none w now hsel]
    simp
  · have hmem : cand ∈ db := (selectCandidate_mem hsel).1
    have hrc : stmtRowcount cand.id db = 1 := stmtRowcount_eq_one h2 hmem
    rw [ct_some w now hsel hrc]
    simp

theorem claimTransaction_inv {w : String} {now : Nat} {db : DB} {t : Row} {db1 : DB}
    (h2 : (db.map Row.id).Nodup)
    (h : claimTransaction w now db = (.done (some t), db1)) :
    ∃ cand, selectCandidate db = some cand ∧ t = claimRow w now cand ∧
      db1 = stmtClaimApply cand.id w cand.retry_count now db := by
  rcases hsel : selectCandidate db with _ | cand
  · rw [ct_none w now hsel] at h
    simp at h
  · have hmem : cand ∈ db := (selectCandidate_mem hsel).1
    have hrc : stmtRowcount cand.id db = 1 := stmtRowcount_eq_one h2 hmem
    have hfind : findRow cand.id db = some cand := nodup_findRow h2 hmem
    rw [ct_some w now hsel hrc, findRow_stmtClaim_self, hfind] at h
    simp only [Option.map_some', Prod.mk.injEq, ClaimResult.done.injEq,
      Option.some.injEq] at h
    exact ⟨cand, rfl, h.1.symm, h.2.symm⟩

theorem gptAttempts_no_candidate {w : String} {now : Nat} {db : DB}
    (h : selectCandidate db = none) :
    ∀ (outcomes : List AttemptOutcome) (k : Nat),
      ∃ s, gptAttempts w now outcomes k db = (none, db, s) := by
  intro outcomes
  induction outcomes with
  | nil => intro k; exact ⟨[], rfl⟩
  | cons o rest ih =>
    intro k
    cases o with
    | unexpected => exact ⟨[], rfl⟩
    | opError =>
      obtain ⟨s, hs⟩ := ih (k + 1)
      refine ⟨(k + 1) :: s, ?_⟩
      simp only [gptAttempts, hs]
    | lostRace =>
      refine ⟨[], ?_⟩
      simp only [gptAttempts, h]
    | ok =>
      refine ⟨[], ?_⟩
      simp only [gptAttempts, ct_none w now h]

theorem gptAttempts_all_fail {w : String} {now : Nat} {db : DB} :
    ∀ (outcomes : List AttemptOutcome) (k : Nat),
      (∀ o ∈ outcomes, o = .opError ∨
        (o = .lostRace ∧ (selectCandidate db).isSome = true)) →
      gptAttempts w now outcomes k db =
        (none, db, List.range' (k + 1) outcomes.length) := by
  intro outcomes
  induction outcomes with
  | nil => intro k h; rfl
  | cons o rest ih =>
    intro k h
    have ho := h o (List.mem_cons_self _ _)
    have hrest := fun x hx => h x (List.mem_cons_of_mem _ hx)
    rcases ho with ho | ⟨ho, hsome⟩
    · subst ho
      simp only [gptAttempts, ih (k + 1) hrest, List.length_cons]
      rw [List.range'_succ]
    · subst ho
      rcases hs : selectCandidate db with _ | cand
      · rw [hs] at hsome
        simp at hsome
      · simp only [gptAttempts, hs, ih (k + 1) hrest, List.length_cons]
        rw [List.range'_succ]

theorem gptAttempts_some_inv {w : String} {now : Nat} {db : DB}
    (h2 : (db.map Row.id).Nodup) :
    ∀ (outcomes : List AttemptOutcome) (k : Nat) {t : Row} {db1 : DB} {s : List Nat},
      gptAttempts w now outcomes k db = (some t, db1, s) →
      claimTransaction w now db = (.done (some t), db1) := by
  intro outcomes
  induction outcomes with
  | nil =>
    intro k t db1 s h
    simp [gptAttempts] at h
  | cons o rest ih =>
    intro k t db1 s h
    cases o with
    | unexpected => simp [gptAttempts] at h
    | opError =>
      simp only [gptAttempts] at h
      rcases hrec : gptAttempts w now rest (k + 1) db with ⟨r0, d0, s0⟩
      rw [hrec] at h
      simp only [Prod.mk.injEq] at h
      exact ih (k + 1) (show gptAttempts w now rest (k + 1) db = (some t, db1, s0) by
        rw [hrec, h.1, h.2.1])
    | lostRace =>
      simp only [gptAttempts] at h
      rcases hs : selectCandidate db with _ | cand
      · rw [hs] at h
        simp at h
      · rw [hs] at h
        rcases hrec : gptAttempts w now rest (k + 1) db with ⟨r0, d0, s0⟩
        rw [hrec] at h
        simp only [Prod.mk.injEq] at h
        exact ih (k + 1) (show gptAttempts w now rest (k + 1) db = (some t, db1, s0) by
          rw [hrec, h.1, h.2.1])
    | ok =>
      simp only [gptAttempts] at h
      rcases hct : claimTransaction w now db with ⟨res, d1⟩
      rw [hct] at h
      cases res with
      | done r =>
        simp only [Prod.mk.injEq] at h
        rw [h.1, h.2.1]
      | retry =>
        exact absurd (by rw [hct] : (claimTransaction w now db).1 = .retry)
          (claimTransaction_not_retry h2 w now)

theorem getPendingTask_some_inv {w : String} {now : Nat} {db : DB}
    (h2 : (db.map Row.id).Nodup) {c : Bool} {outcomes : List AttemptOutcome}
    {t : Row} {db1 : DB} {s : List Nat}
    (h : getPendingTask w now c outcomes db = .ok (some t, db1, s)) :
    claimTransaction w now db = (.done (some t), db1) := by
  cases c with
  | false => simp [getPendingTask] at h
  | true =>
    simp only [getPendingTask, if_true] at h
    injection h with h3
    exact gptAttempts_some_inv h2 outcomes 0 h3

theorem updateValues_id (st : Status) (em wc : Option String) (now : Nat) (r : Row) :
    (updateValues st em wc now r).id = r.id := by
  simp only [updateValues]
  cases em <;> split_ifs <;> rfl

theorem updateValues_file_key (st : Status) (em wc : Option String) (now : Nat) (r : Row) :
    (updateValues st em wc now r).file_key = r.file_key := by
  simp only [updateValues]
  cases em <;> split_ifs <;> rfl

theorem updateValues_discovered_at (st : Status) (em wc : Option String) (now : Nat) (r : Row) :
    (updateValues st em wc now r).discovered_at = r.discovered_at := by
  simp only [updateValues]
  cases em <;> split_ifs <;> rfl

theorem updateValues_retry_count (st : Status) (em wc : Option String) (now : Nat) (r : Row) :
    (updateValues st em wc now r).retry_count = r.retry_count := by
  simp only [updateValues]
  cases em <;> split_ifs <;> rfl

theorem updateValues_last_attempted (st : Status) (em wc : Option String) (now : Nat) (r : Row) :
    (updateValues st em wc now r).last_attempted_at = some now := by
  simp only [updateValues]
  cases em <;> split_ifs <;> rfl

theorem updateValues_status (st : Status) (em wc : Option String) (now : Nat) (r : Row) :
    (updateValues st em wc now r).status = st := by
  simp only [updateValues]
  cases em <;> split_ifs <;> rfl

theorem updateValues_completed_at (st : Status) (em wc : Option String) (now : Nat) (r : Row) :
    (updateValues st em wc now r).completed_at =
      (if st = Status.completed then some now else r.completed_at) := by
  simp only [updateValues]
  cases em <;> split_ifs <;> rfl

theorem updateValues_error (st : Status) (em wc : Option String) (now : Nat) (r : Row) :
    (updateValues st em wc now r).error_message =
      (match em with
       | some m => some m
       | none => r.error_message) := by
  simp only [updateValues]
  cases em <;> split_ifs <;> rfl

theorem updateValues_worker (st : Status) (em wc : Option String) (now : Nat) (r : Row) :
    (updateValues st em wc now r).worker_id =
      (if st = Status.completed ∨ st = Status.permanent_failure then none
       else if truthy wc && strStartsWith (statusStr st) "failed_" then none
       else r.worker_id) := by
  simp only [updateValues]
  cases em <;> split_ifs <;> first | rfl | tauto

theorem releaseValues_worker (st : Status) (em : Option String) (now : Nat) (r : Row) :
    (releaseValues st em now r).worker_id = none := by
  simp only [releaseValues]
  cases em <;> rfl

theorem releaseValues_status (st : Status) (em : Option String) (now : Nat) (r : Row) :
    (releaseValues st em now r).status = st := by
  simp only [releaseValues]
  cases em <;> rfl

theorem releaseValues_retry_count (st : Status) (em : Option String) (now : Nat) (r : Row) :
    (releaseValues st em now r).retry_count = r.retry_count := by
  simp only [releaseValues]
  cases em <;> rfl

theorem releaseValues_completed_at (st : Status) (em : Option String) (now : Nat) (r : Row) :
    (releaseValues st em now r).completed_at = r.completed_at := by
  simp only [releaseValues]
  cases em <;> rfl

theorem releaseValues_id (st : Status) (em : Option String) (now : Nat) (r : Row) :
    (releaseValues st em now r).id = r.id := by
  simp only [releaseValues]
  cases em <;> rfl

theorem findRow_updateTaskStatus_self (tid : Nat) (st : Status)
    (em wc : Option String) (now : Nat) (db : DB) :
    findRow tid (updateTaskStatus tid st em wc now db) =
      (findRow tid db).map (updateValues st em wc now) := by
  rw [updateTaskStatus]
  apply findRow_mapUpdate_self
  intro r
  exact updateValues_id st em wc now r

theorem findRow_updateTaskStatus_ne {s tid : Nat} (hne : s ≠ tid) (st : Status)
    (em wc : Option String) (now : Nat) (db : DB) :
    findRow s (updateTaskStatus tid st em wc now db) = findRow s db := by
  rw [updateTaskStatus]
  apply findRow_mapUpdate_ne
  · intro r
    exact updateValues_id st em wc now r
  · exact hne

theorem findRow_releaseTask_self (tid : Nat) (st : Status)
    (em : Option String) (now : Nat) (db : DB) :
    findRow tid (releaseTask tid st em now db) =
      (findRow tid db).map (releaseValues st em now) := by
  rw [releaseTask]
  apply findRow_mapUpdate_self
  intro r
  exact releaseValues_id st em now r

theorem findRow_releaseTask_ne {s tid : Nat} (hne : s ≠ tid) (st : Status)
    (em : Option String) (now : Nat) (db : DB) :
    findRow s (releaseTask tid st em now db) = findRow s db := by
  rw [releaseTask]
  apply findRow_mapUpdate_ne
  · intro r
    exact releaseValues_id st em now r
  · exact hne

theorem findRow_stmtClaim_ne {s tid : Nat} (hne : s ≠ tid) (w : String)
    (crc now : Nat) (db : DB) :
    findRow s (stmtClaimApply tid w crc now db) = findRow s db := by
  rw [stmtClaimApply]
  apply findRow_mapUpdate_ne
  · intro r
    rfl
  · exact hne

theorem updateTaskStatus_ids (tid : Nat) (st : Status) (em wc : Option String)
    (now : Nat) (db : DB) :
    (updateTaskStatus tid st em wc now db).map Row.id = db.map Row.id := by
  rw [updateTaskStatus]
  apply ids_mapUpdate
  intro r
  exact updateValues_id st em wc now r

theorem releaseTask_ids (tid : Nat) (st : Status) (em : Option String)
    (now : Nat) (db : DB) :
    (releaseTask tid st em now db).map Row.id = db.map Row.id := by
  rw [releaseTask]
  apply ids_mapUpdate
  intro r
  exact releaseValues_id st em now r

theorem applyOp_ids (db : DB) (op : Op) :
    (applyOp db op).map Row.id = db.map Row.id := by
  cases op with
  | claim w now => exact claimTransaction_ids w now db
  | lose => rfl
  | updateStatus tid st em wc now => exact updateTaskStatus_ids tid st em wc now db
  | release tid st em now => exact releaseTask_ids tid st em now db

theorem countKey_pos_iff {k : String} {db : DB} :
    1 ≤ countKey k db ↔ ∃ r ∈ db, r.file_key = k := by
  constructor
  · intro h
    have hne : db.filter (fun r => r.file_key == k) ≠ [] := by
      intro he
      rw [countKey, he] at h
      simp at h
    rcases List.exists_mem_of_ne_nil _ hne with ⟨x, hx⟩
    exact ⟨x, (List.mem_filter.mp hx).1, by simpa using (List.mem_filter.mp hx).2⟩
  · rintro ⟨r, hr, hk⟩
    have hmem : r ∈ db.filter (fun r => r.file_key == k) :=
      List.mem_filter.mpr ⟨hr, by simpa using hk⟩
    have := List.length_pos.mpr (List.ne_nil_of_mem hmem)
    rw [countKey]
    omega

theorem addTask_any_iff {k : String} {db : DB} :
    db.any (fun r => r.file_key == k) = true ↔ 1 ≤ countKey k db := by
  rw [List.any_eq_true]
  constructor
  · rintro ⟨r, hr, hk⟩
    exact countKey_pos_iff.mpr ⟨r, hr, by simpa using hk⟩
  · intro h
    obtain ⟨r, hr, hk⟩ := countKey_pos_iff.mp h
    exact ⟨r, hr, by simpa using hk⟩

theorem addTask_already {k : String} {now : Nat} {db : DB}
    (h : 1 ≤ countKey k db) : addTask k now db = (false, db) := by
  rw [addTask, if_pos (addTask_any_iff.mpr h)]

theorem countKey_addTaskStep {k : String} (now : Nat) {db : DB}
    (h : countKey k db ≤ 1) : countKey k (addTaskStep k now db) = 1 := by
  by_cases hc : 1 ≤ countKey k db
  · have : addTaskStep k now db = db := by
      rw [addTaskStep, addTask_already hc]
    rw [this]
    omega
  · have h0 : countKey k db = 0 := by omega
    have hany : db.any (fun r => r.file_key == k) = false := by
      rcases hb : db.any (fun r => r.file_key == k) with _ | _
      · rfl
      · exact absurd (addTask_any_iff.mp hb) (by omega)
    have hstep : addTaskStep k now db = db ++ [addTaskRow db k now] := by
      simp [addTaskStep, addTask, hany]
    have happ : countKey k (db ++ [addTaskRow db k now]) = countKey k db + 1 := by
      simp [countKey, List.filter_append, addTaskRow]
    rw [hstep, happ, h0]

theorem countKey_iterate {k : String} (now : Nat) :
    ∀ (N : Nat) (db : DB), countKey k db ≤ 1 → 1 ≤ countKey k db + N →
      countKey k ((addTaskStep k now)^[N] db) = 1 := by
  intro N
  induction N with
  | zero =>
    intro db h1 h2
    have h3 : countKey k db = 1 := by omega
    simpa [Function.iterate_zero_apply] using h3
  | succ n ih =>
    intro db h1 h2
    rw [Function.iterate_succ_apply]
    have hone : countKey k (addTaskStep k now db) = 1 := countKey_addTaskStep now h1
    exact ih _ (by omega) (by omega)

theorem getTaskByKey_isSome_of_mem {k : String} {db : DB} {r : Row}
    (hr : r ∈ db) (hk : r.file_key = k) : (getTaskByKey k db).isSome = true := by
  rw [getTaskByKey, List.find?_isSome]
  exact ⟨r, hr, by simpa using hk⟩

theorem discovererStep_present {k : String} {db : DB}
    (h : (getTaskByKey k db).isSome = true) (now a s : Nat) :
    discovererStep now ((a, s), db) k = ((a, s + 1), db) := by
  rcases hg : getTaskByKey k db with _ | r
  · rw [hg] at h
    simp at h
  · simp [discovererStep, hg]

theorem discovererStep_extends (now : Nat) (a s : Nat) (db : DB) (k : String) :
    ∃ ext, (discovererStep now ((a, s), db) k).2 = db ++ ext := by
  rcases hg : getTaskByKey k db with _ | r
  · rcases hany : db.any (fun r => r.file_key == k) with _ | _
    · refine ⟨[addTaskRow db k now], ?_⟩
      simp [discovererStep, hg, addTask, hany]
    · refine ⟨[], ?_⟩
      simp [discovererStep, hg, addTask, hany]
  · refine ⟨[], ?_⟩
    simp [discovererStep, hg]

theorem discovererFold_extends (now : Nat) :
    ∀ (keys : List String) (a s : Nat) (db : DB),
      ∃ ext, (keys.foldl (discovererStep now) ((a, s), db)).2 = db ++ ext := by
  intro keys
  induction keys with
  | nil =>
    intro a s db
    exact ⟨[], by simp⟩
  | cons k ks ih =>
    intro a s db
    rcases hstep : discovererStep now ((a, s), db) k with ⟨⟨a1, s1⟩, db1⟩
    obtain ⟨e1, he1⟩ := discovererStep_extends now a s db k
    rw [hstep] at he1
    have he1x : db1 = db ++ e1 := he1
    obtain ⟨e2, he2⟩ := ih a1 s1 db1
    refine ⟨e1 ++ e2, ?_⟩
    simp only [List.foldl_cons, hstep]
    rw [he2, he1x, List.append_assoc]

theorem discovererFold_all_present (now : Nat) :
    ∀ (keys : List String) (db : DB),
      (∀ k ∈ keys, (getTaskByKey k db).isSome = true) →
      ∀ a s, keys.foldl (discovererStep now) ((a, s), db) =
        ((a, s + keys.length), db) := by
  intro keys
  induction keys with
  | nil =>
    intro db h a s
    simp
  | cons k ks ih =>
    intro db h a s
    have hk := h k (List.mem_cons_self _ _)
    simp only [List.foldl_cons, discovererStep_present hk now a s]
    rw [ih db (fun x hx => h x (List.mem_cons_of_mem _ hx)) a (s + 1)]
    have hlen : s + 1 + ks.length = s + (k :: ks).length := by
      simp [List.length_cons]
      omega
    rw [hlen]

theorem runClaimants_no_eligible {db : DB}
    (h : db.filter eligibleB = []) (now : Nat) :
    ∀ ws : List String, runClaimants now ws db = (ws.map (fun _ => none), db) := by
  intro ws
  induction ws with
  | nil => rfl
  | cons w ws ih =>
    simp only [runClaimants, claimTransaction_no_eligible h w now, ih, List.map_cons]

theorem countP_isSome_map_none (ws : List String) :
    ((ws.map (fun _ => (none : Option Row))).countP (fun o => o.isSome)) = 0 := by
  induction ws with
  | nil => rfl
  | cons w ws ih =>
    simp [List.countP_cons, ih]

theorem applyOp_retry_count (tid : Nat) {db : DB} (h2 : (db.map Row.id).Nodup)
    (op : Op) :
    (findRow tid (applyOp db op)).map Row.retry_count =
      (findRow tid db).map (fun r => r.retry_count + winsOn db tid op) := by
  cases op with
  | lose =>
    cases hf : findRow tid db <;> simp [applyOp, winsOn, hf]
  | updateStatus tid2 st em wc now =>
    by_cases htid : tid = tid2
    · subst htid
      simp only [applyOp, findRow_updateTaskStatus_self, winsOn]
      cases hf : findRow tid db <;> simp [updateValues_retry_count]
    · simp only [applyOp, findRow_updateTaskStatus_ne htid, winsOn]
      cases hf : findRow tid db <;> simp
  | release tid2 st em now =>
    by_cases htid : tid = tid2
    · subst htid
      simp only [applyOp, findRow_releaseTask_self, winsOn]
      cases hf : findRow tid db <;> simp [releaseValues_retry_count]
    · simp only [applyOp, findRow_releaseTask_ne htid, winsOn]
      cases hf : findRow tid db <;> simp
  | claim w now =>
    rcases hsel : selectCandidate db with _ | cand
    · have hct := ct_none w now hsel
      have happ : applyOp db (Op.claim w now) = db := by
        simp only [applyOp, hct]
      have hw0 : winsOn db tid (Op.claim w now) = 0 := by
        simp only [winsOn, hct]
      rw [happ, hw0]
      cases hf : findRow tid db <;> simp
    · have hmem := (selectCandidate_mem hsel).1
      have hrc := stmtRowcount_eq_one h2 hmem
      have hct := ct_some w now hsel hrc
      have hfind := nodup_findRow h2 hmem
      have hre : findRow cand.id (stmtClaimApply cand.id w cand.retry_count now db) =
          some (claimRow w now cand) := by
        rw [findRow_stmtClaim_self, hfind]
        rfl
      have happ : applyOp db (Op.claim w now) =
          stmtClaimApply cand.id w cand.retry_count now db := by
        simp only [applyOp, hct]
      by_cases htid : tid = cand.id
      · subst htid
        have hw1 : winsOn db cand.id (Op.claim w now) = 1 := by
          simp only [winsOn, hct, hre]
          simp [claimRow]
        rw [happ, hre, hfind, hw1]
        simp [claimRow]
      · have hw0 : winsOn db tid (Op.claim w now) = 0 := by
          simp only [winsOn, hct, hre]
          rw [if_neg]
          intro he
          exact htid (by rw [← he]; rfl)
        rw [happ, findRow_stmtClaim_ne htid w cand.retry_count now db, hw0]
        cases hf : findRow tid db <;> simp

theorem applyOps_retry_count (tid : Nat) :
    ∀ (ops : List Op) (db : DB), (db.map Row.id).Nodup →
      (findRow tid (applyOps db ops)).map Row.retry_count =
        (findRow tid db).map (fun r => r.retry_count + countWins db tid ops) := by
  intro ops
  induction ops with
  | nil =>
    intro db h2
    cases hf : findRow tid db <;> simp [applyOps, countWins, hf]
  | cons op ops ih =>
    intro db h2
    have h2b : ((applyOp db op).map Row.id).Nodup := by
      rw [applyOp_ids]
      exact h2
    have hstep := applyOp_retry_count tid h2 op
    rw [show applyOps db (op :: ops) = applyOps (applyOp db op) ops from rfl]
    rw [show countWins db tid (op :: ops) =
      winsOn db tid op + countWins (applyOp db op) tid ops from rfl]
    rw [ih (applyOp db op) h2b]
    cases hf : findRow tid db with
    | none =>
      rw [hf] at hstep
      have hnone : findRow tid (applyOp db op) = none := by
        simpa [Option.map_eq_none'] using hstep
      rw [hnone]
      simp
    | some x =>
      rcases hf2 : findRow tid (applyOp db op) with _ | y
      · rw [hf, hf2] at hstep
        simp at hstep
      · rw [hf, hf2] at hstep
        simp only [Option.map_some'] at hstep
        injection hstep with h5
        simp only [Option.map_some']
        congr 1
        omega

theorem runOnce_isOk (w : String) (now : Nat) (outcomes : List AttemptOutcome)
    (oracle : ProcOracle) (db : DB) :
    ∃ b db2, runOnce w now true outcomes oracle db = .ok (b, db2) := by
  rcases hg : gptAttempts w now outcomes 0 db with ⟨ro, d1, sl⟩
  have hgpt : getPendingTask w now true outcomes db = .ok (ro, d1, sl) := by
    simp [getPendingTask, hg]
  cases ro with
  | none => exact ⟨false, d1, by simp [runOnce, hgpt]⟩
  | some task =>
    cases hp : processSingleTask w task.id task.retry_count oracle now d1 with
    | normal d2 => exact ⟨true, d2, by simp [runOnce, hgpt, hp]⟩
    | raised d2 =>
      by_cases hr : task.retry_count ≥ MAX_RETRIES
      · exact ⟨true, updateTaskStatus task.id Status.permanent_failure
          (some "Unhandled exception") (some w) now d2,
          by simp [runOnce, hgpt, hp, hr]⟩
      · exact ⟨true, releaseTask task.id Status.failed_download
          (some "Unhandled exception") now d2,
          by simp [runOnce, hgpt, hp, hr]⟩

theorem runOnce_raised_post {w : String} {now : Nat}
    {outcomes : List AttemptOutcome} {oracle : ProcOracle} {db : DB} {t : Row}
    {db1 d2 : DB} {sleeps : List Nat}
    (hgpt : getPendingTask w now true outcomes db = .ok (some t, db1, sleeps))
    (hp : processSingleTask w t.id t.retry_count oracle now db1 = .raised d2)
    {y : Row} (hfind : findRow t.id d2 = some y) :
    isOkE (runOnce w now true outcomes oracle db) = true ∧
    (findRow t.id (exceptDB (runOnce w now true outcomes oracle db))).map
      Row.worker_id = some none ∧
    (findRow t.id (exceptDB (runOnce w now true outcomes oracle db))).map
      Row.status = some (if t.retry_count ≥ MAX_RETRIES then
        Status.permanent_failure else Status.failed_download) := by
  by_cases hr : t.retry_count ≥ MAX_RETRIES
  · have hrun : runOnce w now true outcomes oracle db =
        .ok (true, updateTaskStatus t.id Status.permanent_failure
          (some "Unhandled exception") (some w) now d2) := by
      simp [runOnce, hgpt, hp, hr]
    rw [hrun]
    refine ⟨rfl, ?_, ?_⟩
    · simp only [exceptDB]
      rw [findRow_updateTaskStatus_self, hfind]
      simp [updateValues_worker]
    · simp only [exceptDB]
      rw [findRow_updateTaskStatus_self, hfind]
      simp [updateValues_status, hr]
  · have hrun : runOnce w now true outcomes oracle db =
        .ok (true, releaseTask t.id Status.failed_download
          (some "Unhandled exception") now d2) := by
      simp [runOnce, hgpt, hp, hr]
    rw [hrun]
    refine ⟨rfl, ?_, ?_⟩
    · simp only [exceptDB]
      rw [findRow_releaseTask_self, hfind]
      simp [releaseValues_worker]
    · simp only [exceptDB]
      rw [findRow_releaseTask_self, hfind]
      simp [releaseValues_status, hr]

/-- C1 counterexample: the claim UPDATE of get_pending_task (stmt_claim)
conditions only on the row id — the worker_id IS NULL guard is commented out
in the source — so applied against a row whose owner is already set (w1) it
matches one row, not zero, and overwrites the owner with the caller (w2). -/
theorem C1_counterexample :
    stmtRowcount 1 [rowOwned1] = 1 ∧
    findRow 1 (stmtClaimApply 1 "w2" 1 9 [rowOwned1]) =
      some { rowOwned1 with
        status := Status.processing
        worker_id := some "w2"
        last_attempted_at := some 9
        retry_count := 2 } := by
  decide

/-- C1 (amended): the claim update itself does not test the owner; mutual
exclusion comes from running the owner-filtered select and the update as one
atomic transaction. Under serialized claim transactions against a store whose
only eligible task is r, the first claimant receives the claimed row and
every later claimant observes no task available: exactly one winner. -/
theorem C1_amended_single_winner {db : DB} {r : Row} (w : String)
    (ws : List String) (now : Nat)
    (h1 : db.filter eligibleB = [r]) (h2 : (db.map Row.id).Nodup) :
    (runClaimants now (w :: ws) db).1 =
      some (claimRow w now r) :: ws.map (fun _ => none) ∧
    ((runClaimants now (w :: ws) db).1.countP (fun o => o.isSome)) = 1 := by
  have hct := claimTransaction_singleton h1 h2 w now
  have hpost : (stmtClaimApply r.id w r.retry_count now db).filter eligibleB = [] :=
    claimPost_no_eligible h1 w r.retry_count now
  have hrest := runClaimants_no_eligible hpost now ws
  have hmain : runClaimants now (w :: ws) db =
      (some (claimRow w now r) :: ws.map (fun _ => none),
        stmtClaimApply r.id w r.retry_count now db) := by
    simp only [runClaimants, hct, hrest]
  constructor
  · rw [hmain]
  · rw [hmain]
    simp [List.countP_cons, countP_isSome_map_none]

/-- Witness for C1: one pending task, three claimants in turn; only the
first obtains a task. -/
theorem C1_amended_single_winner_witness :
    (runClaimants 4 ["a", "b", "c"] [rowPending1]).1 =
      [some (claimRow "a" 4 rowPending1), none, none] :=
  (C1_amended_single_winner "a" ["b", "c"] 4 (by decide) (by decide)).1

/-- C2 (code bug): a task that fails every attempt is escalated to
permanent_failure on its SECOND successful claim (retry_count = 2, since the
worker compares the 1-based total attempt count against MAX_RETRIES = 2 with
a greater-or-equal test and the claim query requires retry_count less than
MAX_RETRIES), and the claim query never hands the task out a third time —
while the spec scenario, and the module test block of db_manager.py (which
expects to re-acquire the task at retry_count = 2 and escalates only when
retry_count exceeds MAX_RETRIES), require three total attempts. -/
theorem C2_code_bug_two_attempts :
    runOnce "w" 1 true [.ok] ⟨.failed, .ok⟩ [rowPending1] = .ok (true, [rowC2b]) ∧
    runOnce "w" 2 true [.ok] ⟨.failed, .ok⟩ [rowC2b] = .ok (true, [rowC2c]) ∧
    rowC2b.status = Status.failed_download ∧
    rowC2b.worker_id = none ∧
    rowC2b.retry_count = 1 ∧
    rowC2c.status = Status.permanent_failure ∧
    rowC2c.retry_count = 2 ∧
    MAX_RETRIES = 2 ∧
    getPendingTask "v" 3 true [.ok, .ok, .ok, .ok, .ok] [rowC2c] =
      .ok (none, [rowC2c], []) :=
  ⟨rfl, rfl, rfl, rfl, rfl, rfl, rfl, rfl, rfl⟩

/-- C3 counterexample: update_task_status conditions only on the task id;
issued with the identity of w2 against a row owned by w1 it matches one row
and rewrites it (here even clearing the owner), instead of affecting zero
rows and leaving the row unchanged. -/
theorem C3_counterexample :
    stmtRowcount 1 [rowOwned1] = 1 ∧
    updateTaskStatus 1 Status.failed_download (some "boom") (some "w2") 9 [rowOwned1] =
      [{ rowOwned1 with
          status := Status.failed_download
          worker_id := none
          last_attempted_at := some 9
          error_message := some "boom" }] := by
  decide

/-- C3 (amended): update_task_status and release_task are each one UPDATE
keyed only on the task id; against a table with unique ids the statement
always matches exactly the one row with that id and applies its values to it
regardless of the current owner (ownership is not verified), leaving every
other row unchanged; worker_id_to_clear only selects whether the owner field
is cleared for a failed_* status. -/
theorem C3_amended_updates_ignore_owner {db : DB} {r : Row}
    (h2 : (db.map Row.id).Nodup) (hr : r ∈ db) (st : Status)
    (em wc : Option String) (now : Nat) :
    stmtRowcount r.id db = 1 ∧
    findRow r.id (updateTaskStatus r.id st em wc now db) =
      some (updateValues st em wc now r) ∧
    findRow r.id (releaseTask r.id st em now db) =
      some (releaseValues st em now r) ∧
    (∀ s, s ≠ r.id →
      findRow s (updateTaskStatus r.id st em wc now db) = findRow s db) := by
  have hfind := nodup_findRow h2 hr
  refine ⟨stmtRowcount_eq_one h2 hr, ?_, ?_, ?_⟩
  · rw [findRow_updateTaskStatus_self, hfind]
    rfl
  · rw [findRow_releaseTask_self, hfind]
    rfl
  · intro s hs
    exact findRow_updateTaskStatus_ne hs st em wc now db

/-- Witness for C3: a concrete row owned by w1 and a caller passing w2. -/
theorem C3_amended_updates_ignore_owner_witness :
    stmtRowcount 1 [rowOwned1] = 1 ∧
    findRow 1 (updateTaskStatus 1 Status.failed_download (some "boom")
        (some "w2") 9 [rowOwned1]) =
      some (updateValues Status.failed_download (some "boom") (some "w2") 9
        rowOwned1) := by
  have h := @C3_amended_updates_ignore_owner [rowOwned1] rowOwned1
    (by decide) (by decide) Status.failed_download (some "boom") (some "w2") 9
  exact ⟨h.1, h.2.1⟩

/-- C4: the candidate select of get_pending_task admits exactly the rows with
status pending, or a failed status with retry_count below MAX_RETRIES, whose
owner is empty; the chosen row is minimal in the (retry_count, discovered_at)
order among eligible rows; a successful claim returns the re-read row with
status processing, the caller as owner, and retry_count one above the
candidate; and over any trace of claims, lost attempts and status updates the
retry_count of a task equals its initial value plus its number of successful
claims. -/
theorem C4_claim_query_and_attempt_count {db : DB}
    (h2 : (db.map Row.id).Nodup) :
    (∀ r, selectCandidate db = some r → r ∈ db ∧
      (r.status = Status.pending ∨
        ((r.status = Status.failed_download ∨ r.status = Status.failed_upload) ∧
          r.retry_count < MAX_RETRIES)) ∧
      r.worker_id = none) ∧
    (∀ r, selectCandidate db = some r → ∀ x ∈ db, eligibleB x = true → keyLE r x) ∧
    (∀ w now t db1, claimTransaction w now db = (.done (some t), db1) →
      ∃ cand, selectCandidate db = some cand ∧ t = claimRow w now cand ∧
        t.status = Status.processing ∧ t.worker_id = some w ∧
        t.retry_count = cand.retry_count + 1 ∧ findRow t.id db1 = some t) ∧
    (∀ tid ops, (findRow tid (applyOps db ops)).map Row.retry_count =
      (findRow tid db).map (fun r => r.retry_count + countWins db tid ops)) := by
  refine ⟨?_, ?_, ?_, ?_⟩
  · intro r hr
    obtain ⟨hmem, he⟩ := selectCandidate_mem hr
    obtain ⟨he1, he2⟩ := eligibleB_iff.mp he
    exact ⟨hmem, he1, he2⟩
  · intro r hr
    exact selectCandidate_min hr
  · intro w now t db1 h
    obtain ⟨cand, hsel, ht, hdb1⟩ := claimTransaction_inv h2 h
    subst ht
    exact ⟨cand, hsel, rfl, rfl, rfl, rfl, claimTransaction_done_findRow h⟩
  · intro tid ops
    exact applyOps_retry_count tid ops db h2

/-- Witness for C4: two fresh tasks; one winning claim on task 1 followed by
a lost attempt leaves its attempt count at one. -/
theorem C4_claim_query_and_attempt_count_witness :
    (findRow 1 (applyOps [rowPending1, rowPending2]
      [Op.claim "w" 5, Op.lose])).map Row.retry_count = some 1 := by
  have h := (@C4_claim_query_and_attempt_count [rowPending1, rowPending2]
    (by decide)).2.2.2 1 [Op.claim "w" 5, Op.lose]
  rw [h]
  decide

/-- C5: discovery is idempotent: a key already present makes add_task signal
already-present by returning False with the table unchanged (the uniqueness
violation is caught, never re-raised); iterating add_task N times on a store
holding at most one row for the key leaves exactly one row whenever at least
one insertion happened; and the discoverer counts an already-present key as
skipped, not as a failure. -/
theorem C5_discovery_idempotent :
    (∀ (k : String) (now : Nat) (db : DB), 1 ≤ countKey k db →
      addTask k now db = (false, db)) ∧
    (∀ (k : String) (now : Nat) (db : DB) (N : Nat), countKey k db ≤ 1 →
      1 ≤ countKey k db + N →
      countKey k ((addTaskStep k now)^[N] db) = 1) ∧
    (∀ (now a s : Nat) (db : DB) (k : String),
      (getTaskByKey k db).isSome = true →
      discovererStep now ((a, s), db) k = ((a, s + 1), db)) := by
  refine ⟨?_, ?_, ?_⟩
  · intro k now db h
    exact addTask_already h
  · intro k now db N h1 h2
    exact countKey_iterate now N db h1 h2
  · intro now a s db k h
    exact discovererStep_present h now a s

/-- Witness for C5 at concrete keys and stores. -/
theorem C5_discovery_idempotent_witness :
    addTask "a" 3 [rowKeyA] = (false, [rowKeyA]) ∧
    countKey "a" ((addTaskStep "a" 3)^[2] []) = 1 ∧
    discovererStep 3 ((0, 0), [rowKeyA]) "a" = ((0, 1), [rowKeyA]) :=
  ⟨C5_discovery_idempotent.1 "a" 3 [rowKeyA] (by decide),
   C5_discovery_idempotent.2.1 "a" 3 [] 2 (by decide) (by decide),
   C5_discovery_idempotent.2.2 3 0 0 [rowKeyA] "a" (by decide)⟩

/-- C6 counterexample: engine.connect() stands outside every try/except of
get_pending_task, so a store failure while establishing the connection
propagates to the caller even though an eligible task exists — refuting that
get_pending_task never propagates an exception to its caller. -/
theorem C6_counterexample_connect_failure :
    getPendingTask "w1" 0 false [.ok, .ok, .ok, .ok, .ok] [rowPending1] =
      .error () := rfl

/-- C6 (amended): once the store connection is established get_pending_task
never lets an exception escape; it returns none with the table untouched when
no row matches the eligibility predicate; and when every one of its five
bounded attempts is lost to a concurrent claimant or fails operationally, it
returns none after sleeping the linearly increasing back-off delays 1..5
tenths of a second; only a failure to establish the connection itself is
surfaced. -/
theorem C6_amended_no_task_outcomes :
    (∀ (w : String) (now : Nat) (outcomes : List AttemptOutcome) (db : DB),
      ∃ res, getPendingTask w now true outcomes db = .ok res) ∧
    (∀ (w : String) (now : Nat) (outcomes : List AttemptOutcome) (db : DB),
      selectCandidate db = none →
      ∃ sleeps, getPendingTask w now true outcomes db = .ok (none, db, sleeps)) ∧
    (∀ (w : String) (now : Nat) (outcomes : List AttemptOutcome) (db : DB),
      (∀ o ∈ outcomes, o = .opError ∨
        (o = .lostRace ∧ (selectCandidate db).isSome = true)) →
      getPendingTask w now true outcomes db =
        .ok (none, db, List.range' 1 outcomes.length)) := by
  refine ⟨?_, ?_, ?_⟩
  · intro w now outcomes db
    exact ⟨gptAttempts w now outcomes 0 db, rfl⟩
  · intro w now outcomes db h
    obtain ⟨s, hs⟩ := @gptAttempts_no_candidate w now db h outcomes 0
    exact ⟨s, by simp [getPendingTask, hs]⟩
  · intro w now outcomes db h
    have hall := @gptAttempts_all_fail w now db outcomes 0 h
    simp [getPendingTask, hall]

/-- Witness for C6: five operational errors in a row produce none with the
back-off sleeps 1..5. -/
theorem C6_amended_no_task_outcomes_witness :
    getPendingTask "w" 0 true
      [.opError, .opError, .opError, .opError, .opError] [] =
      .ok (none, [], [1, 2, 3, 4, 5]) := by
  have h := C6_amended_no_task_outcomes.2.2 "w" 0
    [.opError, .opError, .opError, .opError, .opError] [] (by decide)
  simpa using h

/-- C7: an exception escaping _process_single_task does not crash the worker.
Part one: with the store connection available every cycle, the poll loop runs
all its cycles and returns normally whatever the transfer oracles do. Part
two: if a cycle claimed task t and processing raised (during download, or
during upload after the downloaded checkpoint), run_once still returns
normally and leaves the row of t unowned, in permanent_failure when the
retry_count recorded at claim time has reached MAX_RETRIES and in the
retryable failed_download state otherwise. -/
theorem C7_worker_survives_exceptions :
    (∀ (w : String) (envs : List CycleEnv) (db : DB),
      (∀ e ∈ envs, e.connectOk = true) →
      ∃ db1, workerLoop w envs db = .ok db1) ∧
    (∀ (w : String) (now : Nat) (outcomes : List AttemptOutcome)
      (oracle : ProcOracle) (db : DB) (t : Row) (db1 : DB) (sleeps : List Nat),
      (db.map Row.id).Nodup →
      getPendingTask w now true outcomes db = .ok (some t, db1, sleeps) →
      (oracle.download = .raised ∨
        (oracle.download = .ok ∧ oracle.upload = .raised)) →
      isOkE (runOnce w now true outcomes oracle db) = true ∧
      (findRow t.id (exceptDB (runOnce w now true outcomes oracle db))).map
        Row.worker_id = some none ∧
      (findRow t.id (exceptDB (runOnce w now true outcomes oracle db))).map
        Row.status = some (if t.retry_count ≥ MAX_RETRIES then
          Status.permanent_failure else Status.failed_download)) := by
  constructor
  · intro w envs
    induction envs with
    | nil =>
      intro db h
      exact ⟨db, rfl⟩
    | cons e rest ih =>
      intro db h
      have he := h e (List.mem_cons_self _ _)
      obtain ⟨b, d2, hr⟩ := runOnce_isOk w e.now e.outcomes e.oracle db
      obtain ⟨db1, hl⟩ := ih d2 (fun x hx => h x (List.mem_cons_of_mem _ hx))
      refine ⟨db1, ?_⟩
      simp only [workerLoop, he, hr]
      exact hl
  · intro w now outcomes oracle db t db1 sleeps h2 hgpt hor
    have hct := getPendingTask_some_inv h2 hgpt
    have hfind1 : findRow t.id db1 = some t := claimTransaction_done_findRow hct
    rcases hor with hd | ⟨hd, hu⟩
    · have hp : processSingleTask w t.id t.retry_count oracle now db1 =
          .raised db1 := by
        simp [processSingleTask, hd]
      exact runOnce_raised_post hgpt hp hfind1
    · have hp : processSingleTask w t.id t.retry_count oracle now db1 =
          .raised (updateTaskStatus t.id Status.downloaded none none now db1) := by
        simp [processSingleTask, hd, hu]
      have hfind2 : findRow t.id
          (updateTaskStatus t.id Status.downloaded none none now db1) =
          some (updateValues Status.downloaded none none now t) := by
        rw [findRow_updateTaskStatus_self, hfind1]
        rfl
      exact runOnce_raised_post hgpt hp hfind2

/-- Witness for C7: one pending task, a download that raises on the first
attempt; run_once returns normally and the task sits unowned in
failed_download. -/
theorem C7_worker_survives_exceptions_witness :
    isOkE (runOnce "w" 1 true [.ok] ⟨.raised, .ok⟩ [rowPending1]) = true ∧
    (findRow 1 (exceptDB (runOnce "w" 1 true [.ok] ⟨.raised, .ok⟩
      [rowPending1]))).map Row.worker_id = some none ∧
    (findRow 1 (exceptDB (runOnce "w" 1 true [.ok] ⟨.raised, .ok⟩
      [rowPending1]))).map Row.status = some Status.failed_download := by
  have h := C7_worker_survives_exceptions.2 "w" 1 [.ok] ⟨.raised, .ok⟩
    [rowPending1] (claimRow "w" 1 rowPending1) [claimRow "w" 1 rowPending1] []
    (by decide) (by rfl) (Or.inl rfl)
  exact ⟨h.1, h.2.1, h.2.2⟩

/-- C8: completed_at is written only by the update that sets the terminal
success status completed (which at the same time clears the owner); status
updates to any other value, release, and the claim update all preserve it; a
fresh task starts with retry_count 0 and completed_at unset; and a task whose
first attempt succeeds ends completed with retry_count 1, completed_at set to
the processing time and owner empty. -/
theorem C8_first_attempt_success :
    (∀ (st : Status) (em wc : Option String) (now : Nat) (r : Row),
      st ≠ Status.completed →
      (updateValues st em wc now r).completed_at = r.completed_at) ∧
    (∀ (em wc : Option String) (now : Nat) (r : Row),
      (updateValues Status.completed em wc now r).completed_at = some now ∧
      (updateValues Status.completed em wc now r).worker_id = none) ∧
    (∀ (st : Status) (em : Option String) (now : Nat) (r : Row),
      (releaseValues st em now r).completed_at = r.completed_at) ∧
    (∀ (w : String) (now : Nat) (r : Row),
      (claimRow w now r).completed_at = r.completed_at) ∧
    (∀ (db : DB) (k : String) (now : Nat),
      (addTaskRow db k now).retry_count = 0 ∧
      (addTaskRow db k now).completed_at = none) ∧
    (∀ (w : String) (now0 now1 : Nat) (db : DB) (t : Row) (db1 : DB),
      claimTransaction w now0 db = (.done (some t), db1) → t.retry_count = 1 →
      isNormal (processSingleTask w t.id t.retry_count ⟨.ok, .ok⟩ now1 db1) = true ∧
      (findRow t.id (procDB (processSingleTask w t.id t.retry_count
        ⟨.ok, .ok⟩ now1 db1))).map Row.status = some Status.completed ∧
      (findRow t.id (procDB (processSingleTask w t.id t.retry_count
        ⟨.ok, .ok⟩ now1 db1))).map Row.retry_count = some 1 ∧
      (findRow t.id (procDB (processSingleTask w t.id t.retry_count
        ⟨.ok, .ok⟩ now1 db1))).map Row.completed_at = some (some now1) ∧
      (findRow t.id (procDB (processSingleTask w t.id t.retry_count
        ⟨.ok, .ok⟩ now1 db1))).map Row.worker_id = some none) := by
  refine ⟨?_, ?_, ?_, ?_, ?_, ?_⟩
  · intro st em wc now r hne
    rw [updateValues_completed_at, if_neg hne]
  · intro em wc now r
    constructor
    · rw [updateValues_completed_at, if_pos rfl]
    · rw [updateValues_worker]
      simp
  · intro st em now r
    exact releaseValues_completed_at st em now r
  · intro w now r
    rfl
  · intro db k now
    exact ⟨rfl, rfl⟩
  · intro w now0 now1 db t db1 hctx hrc1
    have hfind1 : findRow t.id db1 = some t := claimTransaction_done_findRow hctx
    have hp : processSingleTask w t.id t.retry_count ⟨.ok, .ok⟩ now1 db1 =
        .normal (updateTaskStatus t.id Status.completed none (some w) now1
          (updateTaskStatus t.id Status.downloaded none none now1 db1)) := by
      simp [processSingleTask]
    have hfind2 : findRow t.id
        (updateTaskStatus t.id Status.downloaded none none now1 db1) =
        some (updateValues Status.downloaded none none now1 t) := by
      rw [findRow_updateTaskStatus_self, hfind1]
      rfl
    have hfind3 : findRow t.id
        (updateTaskStatus t.id Status.completed none (some w) now1
          (updateTaskStatus t.id Status.downloaded none none now1 db1)) =
        some (updateValues Status.completed none (some w) now1
          (updateValues Status.downloaded none none now1 t)) := by
      rw [findRow_updateTaskStatus_self, hfind2]
      rfl
    rw [hp]
    refine ⟨rfl, ?_, ?_, ?_, ?_⟩
    · simp only [procDB]
      rw [hfind3]
      simp [updateValues_status]
    · simp only [procDB]
      rw [hfind3]
      simp [updateValues_retry_count, hrc1]
    · simp only [procDB]
      rw [hfind3]
      simp [updateValues_completed_at]
    · simp only [procDB]
      rw [hfind3]
      simp [updateValues_worker]

/-- Witness for C8: the claimed fresh task processed with both transfer steps
succeeding. -/
theorem C8_first_attempt_success_witness :
    isNormal (processSingleTask "w" 1 1 ⟨.ok, .ok⟩ 2
      [claimRow "w" 1 rowPending1]) = true ∧
    (findRow 1 (procDB (processSingleTask "w" 1 1 ⟨.ok, .ok⟩ 2
      [claimRow "w" 1 rowPending1]))).map Row.status = some Status.completed ∧
    (findRow 1 (procDB (processSingleTask "w" 1 1 ⟨.ok, .ok⟩ 2
      [claimRow "w" 1 rowPending1]))).map Row.retry_count = some 1 ∧
    (findRow 1 (procDB (processSingleTask "w" 1 1 ⟨.ok, .ok⟩ 2
      [claimRow "w" 1 rowPending1]))).map Row.completed_at = some (some 2) ∧
    (findRow 1 (procDB (processSingleTask "w" 1 1 ⟨.ok, .ok⟩ 2
      [claimRow "w" 1 rowPending1]))).map Row.worker_id = some none := by
  have h := C8_first_attempt_success.2.2.2.2.2 "w" 1 2 [rowPending1]
    (claimRow "w" 1 rowPending1) [claimRow "w" 1 rowPending1] (by rfl) (by rfl)
  exact h

/-- C9: a discovery run only appends: every row already present keeps every
one of its fields (status, retry_count, owner, timestamps, error_message)
whatever its status, and when each key of the run is already present the run
leaves the table identical and counts every key as skipped. -/
theorem C9_rediscovery_frame :
    (∀ (now : Nat) (keys : List String) (db : DB),
      ∃ ext, (discovererRun now keys db).2 = db ++ ext) ∧
    (∀ (now : Nat) (keys : List String) (db : DB),
      (∀ k ∈ keys, (getTaskByKey k db).isSome = true) →
      discovererRun now keys db = ((0, keys.length), db)) := by
  constructor
  · intro now keys db
    exact discovererFold_extends now keys 0 0 db
  · intro now keys db h
    have hall := discovererFold_all_present now keys db h 0 0
    simpa [discovererRun] using hall

/-- Witness for C9: rediscovering the single key a changes nothing and counts
one skip. -/
theorem C9_rediscovery_frame_witness :
    discovererRun 7 ["a"] [rowKeyA] = ((0, 1), [rowKeyA]) := by
  have h := C9_rediscovery_frame.2 7 ["a"] [rowKeyA] (by decide)
  simpa using h

/-- C10 counterexample: the column-level onupdate=func.now() default on
last_attempted_at is added to the SET clause of every update_task_status
statement, so a field outside status, worker_id, completed_at and
error_message does change: here from some 5 to some 9 (while worker_id is
indeed kept because worker_id_to_clear is absent). -/
theorem C10_counterexample_last_attempted :
    updateTaskStatus 1 Status.failed_upload none none 9 [rowOwned1] =
      [{ rowOwned1 with
          status := Status.failed_upload
          last_attempted_at := some 9 }] ∧
    ¬({ rowOwned1 with
        status := Status.failed_upload
        last_attempted_at := some 9 } : Row).last_attempted_at =
      rowOwned1.last_attempted_at := by
  decide

/-- C10 (amended): the single UPDATE of update_task_status sets status and
refreshes last_attempted_at; it clears worker_id exactly when the new status
is completed or permanent_failure, or when the status starts with failed_
and worker_id_to_clear is truthy (neither None nor empty) — otherwise the
owner is kept, and an owned row is never matched by the claim query; it
overwrites error_message only when error_msg is given, writes completed_at
only for completed, and leaves id, file_key, discovered_at and retry_count
unchanged. -/
theorem C10_amended_update_frame (st : Status) (em wc : Option String)
    (now : Nat) (r : Row) :
    (updateValues st em wc now r).status = st ∧
    (updateValues st em wc now r).last_attempted_at = some now ∧
    (updateValues st em wc now r).worker_id =
      (if st = Status.completed ∨ st = Status.permanent_failure then none
       else if truthy wc && strStartsWith (statusStr st) "failed_" then none
       else r.worker_id) ∧
    (updateValues st em wc now r).error_message =
      (match em with
       | some m => some m
       | none => r.error_message) ∧
    (updateValues st em wc now r).completed_at =
      (if st = Status.completed then some now else r.completed_at) ∧
    (updateValues st em wc now r).id = r.id ∧
    (updateValues st em wc now r).file_key = r.file_key ∧
    (updateValues st em wc now r).discovered_at = r.discovered_at ∧
    (updateValues st em wc now r).retry_count = r.retry_count ∧
    (∀ x : Row, x.worker_id ≠ none → eligibleB x = false) :=
  ⟨updateValues_status st em wc now r,
   updateValues_last_attempted st em wc now r,
   updateValues_worker st em wc now r,
   updateValues_error st em wc now r,
   updateValues_completed_at st em wc now r,
   updateValues_id st em wc now r,
   updateValues_file_key st em wc now r,
   updateValues_discovered_at st em wc now r,
   updateValues_retry_count st em wc now r,
   fun _ hx => eligibleB_false_of_owner hx⟩

/-- Witness for C10: releasing a failed row without worker_id_to_clear keeps
its owner while last_attempted_at is refreshed, and the still-owned row is
invisible to the claim query. -/
theorem C10_amended_update_frame_witness :
    (updateValues Status.failed_download none none 9 rowOwned1).worker_id =
      some "w1" ∧
    (updateValues Status.failed_download none none 9
      rowOwned1).last_attempted_at = some 9 ∧
    eligibleB rowOwned1 = false := by
  have h := C10_amended_update_frame Status.failed_download none none 9 rowOwned1
  refine ⟨?_, h.2.1, h.2.2.2.2.2.2.2.2.2 rowOwned1 (by decide)⟩
  rw [h.2.2.1]
  decide
